import Mathlib

/-!
A verification development for the `schemator` Go library (a build-time
JSON-schema generator).  The definitions below are a shallow embedding of the
library's own helper functions (`schemator.go`): pure string manipulation is
translated to Lean functions over `List Char`, filesystem reads, the
`go list` subprocess and the third-party reflector are passed in as explicit
oracles, and Go's `reflect.Type` values are modelled by an inductive type
descriptor.  Directories are modelled as lists of path segments with the
innermost segment first, so that the parent directory is the tail of the
list.
-/

deriving instance DecidableEq for Except

namespace Schemator

/-- Whitespace as recognised by Go's `unicode.IsSpace` on the characters that
occur in source comments and command output (ASCII whitespace plus the two
Latin-1 space characters; the remaining exotic Unicode space characters are
not modelled). -/
def isGoSpace (c : Char) : Bool :=
  c = ' ' || c = '\t' || c = '\n' || c = '\x0b' || c = '\x0c' || c = '\r' ||
  c = '\x85' || c = '\xa0'

/-- Models `strings.TrimSpace` on the character list of a string: drop leading and
trailing whitespace. -/
def goTrimChars (l : List Char) : List Char :=
  ((l.dropWhile isGoSpace).reverse.dropWhile isGoSpace).reverse

/-- Accumulator-based splitting of a string into maximal runs of
non-whitespace characters; models `strings.Fields`.  `cur` holds the current
word in reverse order. -/
def goWordsAux (cur : List Char) : List Char → List (List Char)
  | [] => if cur = [] then [] else [cur.reverse]
  | c :: cs =>
    if isGoSpace c then
      if cur = [] then goWordsAux [] cs else cur.reverse :: goWordsAux [] cs
    else
      goWordsAux (c :: cur) cs

/-- Models `strings.Fields` at the character-list level. -/
def goWords (l : List Char) : List (List Char) := goWordsAux [] l

/-- Join a list of character lists with a single separator character;
models `strings.Join(words, string(c))`. -/
def joinWith (c : Char) : List (List Char) → List Char
  | [] => []
  | [w] => w
  | w :: ws => w ++ c :: joinWith c ws

/-- Models `sanitizeCommentText`: collapse every internal run of whitespace and
newlines to a single space (`strings.Join(strings.Fields(text), " ")`),
leaving the empty string unchanged. -/
def sanitizeCommentText (text : String) : String :=
  if text = "" then text
  else String.mk (joinWith ' ' (goWords text.data))

/-- Split a character list on every occurrence of the separator character;
models `strings.Split` with a single-character separator.  The result is
always non-empty. -/
def splitOnChar (c : Char) : List Char → List (List Char)
  | [] => [[]]
  | x :: xs =>
    if x = c then [] :: splitOnChar c xs
    else
      match splitOnChar c xs with
      | [] => [[x]]
      | w :: ws => (x :: w) :: ws

/-- Byte-wise lexicographic `≤` on strings as used by Go's `sort.Strings`
(for the ASCII package paths involved, byte order and character order
agree). -/
def charListLe : List Char → List Char → Bool
  | [], _ => true
  | _ :: _, [] => false
  | a :: as, b :: bs => if a = b then charListLe as bs else decide (a < b)

/-- Go string `≤`. -/
def strLe (a b : String) : Bool := charListLe a.data b.data

/-- Models `sort.Strings`: sort a list of strings lexicographically.  (Go uses an
introspective sort; any comparison sort produces the same output, so the
model uses insertion sort.) -/
def sortStrings (l : List String) : List String :=
  List.insertionSort (fun a b => strLe a b = true) l

/-- Render a directory, modelled as a list of path segments innermost first,
as an absolute slash-separated path string. -/
def renderPath (dir : List String) : String :=
  String.mk ('/' :: joinWith '/' (dir.reverse.map String.data))

/-- Lexical path cleaning; models `path.Clean` (and `filepath.Clean` on
slash-separated paths): drop empty and `.` segments and resolve `..`
segments against preceding ones, never ascending above the root of a rooted
path. -/
def pathClean (p : String) : String :=
  if p = "" then "."
  else
    let rooted := p.data.headD ' ' = '/'
    let segs := splitOnChar '/' p.data
    let out := segs.foldl (fun acc seg =>
      if seg = [] ∨ seg = ['.'] then acc
      else if seg = ['.', '.'] then
        if acc ≠ [] ∧ acc.getLastD [] ≠ ['.', '.'] then acc.dropLast
        else if rooted then acc
        else acc ++ [['.', '.']]
      else acc ++ [seg]) []
    if rooted then String.mk ('/' :: joinWith '/' out)
    else if out = [] then "." else String.mk (joinWith '/' out)

/-- Models `path.Base`: the last element of a path after stripping trailing
slashes; `"."` for the empty path and `"/"` for a path consisting only of
slashes. -/
def pathBase (p : String) : String :=
  if p = "" then "."
  else
    let l := (p.data.reverse.dropWhile (fun c => c = '/')).reverse
    if l = [] then "/"
    else String.mk ((splitOnChar '/' l).getLastD [])

/-- Models `path.Join` of two elements: join the non-empty elements with a slash
and clean the result; the empty string when both elements are empty. -/
def pathJoin (a b : String) : String :=
  if a = "" ∧ b = "" then ""
  else if a = "" then pathClean b
  else if b = "" then pathClean a
  else pathClean (a ++ "/" ++ b)

/-! ## The `reflect.Type` model

Go's `reflect.Type` values are modelled by a descriptor tree covering
exactly the kinds that `schemator` inspects (pointer, slice, array, map and
struct, with every other kind collapsed into `prim`).  Every descriptor
carries the type's `PkgPath()` (empty for built-ins and anonymous composite
types) and its `Name()` (empty for anonymous types). -/

mutual
inductive GoType where
  | prim (pkgPath name : String)
  | ptr (pkgPath name : String) (elem : GoType)
  | slice (pkgPath name : String) (elem : GoType)
  | array (pkgPath name : String) (elem : GoType)
  | mapT (pkgPath name : String) (key value : GoType)
  | structT (pkgPath name : String) (fields : GoTypeList)
inductive GoTypeList where
  | nil
  | cons (head : GoType) (tail : GoTypeList)
end

deriving instance DecidableEq for GoType, GoTypeList

/-- Models `reflect.Type.PkgPath()`. -/
def GoType.pkgPath : GoType → String
  | .prim p _ | .ptr p _ _ | .slice p _ _ | .array p _ _ | .mapT p _ _ _
  | .structT p _ _ => p

/-- Models `reflect.Type.Name()`. -/
def GoType.name : GoType → String
  | .prim _ n | .ptr _ n _ | .slice _ n _ | .array _ n _ | .mapT _ n _ _
  | .structT _ n _ => n

/-- The `for t.Kind() == reflect.Ptr { t = t.Elem() }` loops in `toString`
and `visitTypeForPackages`: unwrap any number of top-level pointers. -/
def stripPtrs : GoType → GoType
  | .ptr _ _ e => stripPtrs e
  | t => t

/-- Models `t.Elem()` restricted to slice and array types (the only place
`toString` uses it). -/
def sliceOrArrayElem : GoType → Option GoType
  | .slice _ _ e => some e
  | .array _ _ e => some e
  | _ => none

/-- Models `token.IsExported`: the identifier starts with an upper-case letter
(ASCII model of `unicode.IsUpper`). -/
def isExportedIdent (s : String) : Bool :=
  match s.data with
  | [] => false
  | c :: _ => c.isUpper

/-- Models `exportedName`: a defined type's name when it is a non-empty exported
identifier, the empty string otherwise. -/
def exportedName (t : GoType) : String :=
  if t.name = "" then ""
  else if ¬ isExportedIdent t.name then ""
  else t.name

/-- Models `toString`: derive a schema filename from a model value.  A `none`
model is Go's untyped `nil`. -/
def toString (x : Option GoType) : String :=
  match x with
  | none => ""
  | some t₀ =>
    let t := stripPtrs t₀
    let n := exportedName t
    if n ≠ "" then n
    else
      match sliceOrArrayElem t with
      | some e₀ =>
        let e := stripPtrs e₀
        let n2 := exportedName e
        if n2 ≠ "" then n2 ++ "Slice" else ""
      | none => ""

/-- The state threaded through `visitTypeForPackages`: the `packages` set
(as a duplicate-free list) and the identity-keyed `visited` set. -/
structure VisitState where
  pkgs : List String
  visited : List GoType
deriving DecidableEq

/-- Models the map insertion guarded by `pkg != ""`: record a package
path, skipping built-ins and avoiding duplicates. -/
def addPkg (p : String) (pkgs : List String) : List String :=
  if p = "" then pkgs else if p ∈ pkgs then pkgs else p :: pkgs

mutual
/-- Models `visitTypeForPackages`: unwrap pointers, skip already-visited types,
record the package path and recurse into struct fields, slice/array
elements and map keys and values. -/
def visitType : GoType → VisitState → VisitState
  | .ptr _ _ e, st => visitType e st
  | t, st =>
    if t ∈ st.visited then st
    else
      let st1 : VisitState := ⟨addPkg t.pkgPath st.pkgs, t :: st.visited⟩
      match t with
      | .structT _ _ fields => visitFields fields st1
      | .slice _ _ e => visitType e st1
      | .array _ _ e => visitType e st1
      | .mapT _ _ k v => visitType v (visitType k st1)
      | _ => st1

/-- The `for i := 0; i < t.NumField(); i++` loop over struct fields. -/
def visitFields : GoTypeList → VisitState → VisitState
  | .nil, st => st
  | .cons f fs, st => visitFields fs (visitType f st)
end

/-- The fold of `collectDependentPackages` over the model values before
sorting (a `none` model is Go's `nil`, which is skipped). -/
def collectState (models : List (Option GoType)) : VisitState :=
  models.foldl
    (fun st m => match m with | none => st | some t => visitType t st)
    ⟨[], []⟩

/-- Models `collectDependentPackages`: collect every package path referenced by
the models' type graphs and return them sorted.  (Go ranges over the map
keys — `collectState`'s duplicate-free `pkgs` — in unspecified order and
then calls `sort.Strings`; since sorting a duplicate-free list of strings
has a unique result, the model sorts `pkgs` directly.) -/
def collectDependentPackages (models : List (Option GoType)) : List String :=
  sortStrings (collectState models).pkgs

/-! ## Import-path inference

Directories are lists of path segments, innermost segment first, so the
parent directory of `d` is `d.tail` and the filesystem root is `[]`.  The
effectful collaborators of the inference code are collected in `Env`:
`fs` maps a directory to the line list of its `go.mod` when that file
exists, `detectPackageName` is the result of `detectPackageName` (which
parses the package clause of the first non-test `.go` file of the
directory), and `run` is the combined output of the external
`go list -f "\x7b\x7b.Dir\x7d\x7d\t\x7b\x7b.Standard\x7d\x7d" <importPath>`
subprocess, keyed by import path and working directory. -/

structure ImportPath where
  ModuleImportPath : String
  SourceDirectory : String
deriving DecidableEq

structure Env where
  fs : List String → Option (List String)
  detectPackageName : List String → Except String String
  run : String → String → Except String String

/-- The predicate with which the first line of the command output is cut
(`strings.IndexByte(line, '\n')` followed by slicing). -/
def notNewline (c : Char) : Bool := c ≠ '\n'

/-- The output-parsing step of `lookupPackageDir`: trim the combined
output, keep only the text before the first newline, fail when that line is
empty, and otherwise split the line on tabs into the directory (trimmed)
and the standard-library flag. -/
def parseGoListLine (importPath out : String) : Except String (String × Bool) :=
  let line := (goTrimChars out.data).takeWhile notNewline
  if line = [] then
    .error ("go list " ++ importPath ++ " returned empty output")
  else
    let parts := splitOnChar '\t' line
    .ok (String.mk (goTrimChars (parts.headD [])),
      decide (1 < parts.length ∧ parts.getD 1 [] = "true".data))

/-- Models `lookupPackageDir`: run the external package-listing command and parse
its combined output. -/
def lookupPackageDir (run : String → String → Except String String)
    (importPath workDir : String) : Except String (String × Bool) :=
  match run importPath workDir with
  | .error e => .error ("go list " ++ importPath ++ " failed: " ++ e)
  | .ok out => parseGoListLine importPath out

/-- The `module ` keyword that `parseModuleDirective` scans for. -/
def moduleKeyword : List Char := "module ".data

/-- Models `parseModuleDirective`: scan the lines of a `go.mod`, trim each, and on
the first line starting with `module ` return the second whitespace field
(failing when the directive has fewer than two fields); fail when no line
matches. -/
def parseModuleDirective (lines : List String) : Except String String :=
  match lines with
  | [] => .error "module directive not found in go.mod"
  | l :: ls =>
    let line := goTrimChars l.data
    if moduleKeyword.isPrefixOf line then
      let fields := goWords line
      if fields.length < 2 then .error "invalid module directive"
      else .ok (String.mk (fields.getD 1 []))
    else parseModuleDirective ls

/-- The `go.mod`-found branch of the `findModulePath` loop: parse the
module directive of the file found in `dir`. -/
def foundModule (dir : List String) (contents : List String) :
    Except String (List String × String) :=
  match parseModuleDirective contents with
  | .error e => .error e
  | .ok modulePath => .ok (dir, modulePath)

/-- The upward walk of `findModulePath`: read `go.mod` in the current
directory, parse it when present, otherwise move to the parent directory,
failing once the filesystem root has been checked. -/
def findModulePathAux (fs : List String → Option (List String))
    (startDir : List String) : List String → Except String (List String × String)
  | [] =>
    match fs [] with
    | some contents => foundModule [] contents
    | none => .error ("go.mod not found starting from " ++ renderPath startDir)
  | s :: parent =>
    match fs (s :: parent) with
    | some contents => foundModule (s :: parent) contents
    | none => findModulePathAux fs startDir parent

/-- Models `findModulePath`: locate the nearest enclosing `go.mod` and its module
name. -/
def findModulePath (fs : List String → Option (List String))
    (startDir : List String) : Except String (List String × String) :=
  findModulePathAux fs startDir startDir

/-- Models `filepath.Rel(base, target)` in the only configuration the code
exercises, where `base` is an ancestor of `target`: the relative segment
list (outermost first; empty corresponds to `"."`).  `none` models the
cases in which `filepath.Rel` would produce a `..`-path or an error. -/
def relFromAncestor (target base : List String) : Option (List String) :=
  if base.isSuffixOf target then
    some ((target.take (target.length - base.length)).reverse)
  else none

/-- The import path before the package-name suffix: the module path, joined
with the slash-separated relative path when the directory is not the module
root itself (`relPath != "."`). -/
def baseImportPath (modulePath : String) (relSegs : List String) : String :=
  if relSegs = [] then modulePath
  else pathJoin modulePath (String.mk (joinWith '/' (relSegs.map String.data)))

/-- The package-name suffix rule of `inferLocalImportPath`: append the
detected package name unless it is empty, is `main`, or already equals the
final path segment. -/
def appendPkgName (importPath pkgName : String) : String :=
  if pkgName ≠ "" ∧ pkgName ≠ "main" then
    if pathBase importPath ≠ pkgName then pathJoin importPath pkgName
    else importPath
  else importPath

/-- The import path `inferLocalImportPath` computes before attempting
external resolution. -/
def computedImportPath (modulePath : String) (relSegs : List String)
    (pkgName : String) : String :=
  appendPkgName (baseImportPath modulePath relSegs) pkgName

/-- Models `inferLocalImportPath` for an absolute source directory (the caller's
`filepath.Abs` step is the identity on the directory model): find the
module root and name, detect the package name, compute the import path,
then resolve the source directory with `go list`, falling back first to
the import path without the package-name suffix (Go recomputes this
`baseImportPath` from scratch; the model reuses the equal value) and
finally to the literal source directory. -/
def inferLocalImportPath (env : Env) (absSourceDir : List String) :
    Except String ImportPath :=
  match findModulePath env.fs absSourceDir with
  | .error e => .error e
  | .ok (moduleDir, modulePath) =>
    match env.detectPackageName absSourceDir with
    | .error e => .error e
    | .ok pkgName =>
      match relFromAncestor absSourceDir moduleDir with
      | none => .error "cannot compute path relative to module root"
      | some relSegs =>
        let importPath := computedImportPath modulePath relSegs pkgName
        let fallbackPath := baseImportPath modulePath relSegs
        let resolved :=
          match lookupPackageDir env.run importPath (renderPath moduleDir) with
          | .ok (d, _) => (importPath, d)
          | .error _ =>
            match lookupPackageDir env.run fallbackPath (renderPath moduleDir) with
            | .ok (altDir, _) => (fallbackPath, altDir)
            | .error _ => (importPath, renderPath absSourceDir)
        let dir := if resolved.2 = "" then renderPath absSourceDir else resolved.2
        .ok ⟨resolved.1, dir⟩

/-! ## Comment harvesting

The third-party reflector's comment map is modelled as an association list
from comment keys to comment text.  `CommentEnv.add` is the effect of the
third-party `AddGoComments(importPath, dir)` call on the map (it reads the
source files under `dir`), and `CommentEnv.chdirOk` tells whether changing
the process working directory to a given directory succeeds. -/

structure CommentEnv where
  add : String → String → List (String × String) →
    Except String (List (String × String))
  chdirOk : String → Bool

/-- Models `sanitizeCommentMap`: rewrite every entry of the comment map whose text
differs from its sanitized form (so after the call every value is its own
sanitized form). -/
def sanitizeCommentMap (m : List (String × String)) : List (String × String) :=
  m.map (fun kv =>
    if sanitizeCommentText kv.2 ≠ kv.2 then (kv.1, sanitizeCommentText kv.2)
    else kv)

/-- Models `filepath.IsAbs` on POSIX: the path starts with a slash. -/
def isAbsPath (s : String) : Bool :=
  match s.data with
  | [] => false
  | c :: _ => c = '/'

/-- Models `addGoCommentsForImportPath`: require a module import path and a source
directory; for a relative directory scrape comments at the cleaned relative
path, for an absolute directory change the working directory (modelled by
`chdirOk`; the surrounding lock and restore of `withWorkingDir` have no
observable effect on the map) and scrape at `"."`; in both cases sanitize
the whole comment map afterwards. -/
def addGoCommentsForImportPath (env : CommentEnv) (ip : ImportPath)
    (m : List (String × String)) : Except String (List (String × String)) :=
  if ip.ModuleImportPath = "" then .error "missing module import path"
  else if ip.SourceDirectory = "" then
    .error ("source directory is empty for " ++ ip.ModuleImportPath)
  else if ¬ isAbsPath ip.SourceDirectory then
    match env.add ip.ModuleImportPath (pathClean ip.SourceDirectory) m with
    | .error e => .error e
    | .ok m1 => .ok (sanitizeCommentMap m1)
  else if ¬ env.chdirOk (pathClean ip.SourceDirectory) then
    .error ("chdir " ++ pathClean ip.SourceDirectory ++ " failed")
  else
    match env.add ip.ModuleImportPath "." m with
    | .error e => .error e
    | .ok m1 => .ok (sanitizeCommentMap m1)

/-! ## The generator

`generator.Generate` is modelled with an explicit event trace so that the
order of its effects (required-file checks, comment harvesting, schema
reflection) is part of the model.  `GenEnv.resolve` is the outcome of
`resolveImportPaths`, `GenEnv.statOk` the success of `os.Stat` per required
file, and `GenEnv.reflectAndMarshal` the third-party
`Reflect`/`json.MarshalIndent` step from the final comment map to the
schema bytes. -/

inductive GenEvent where
  | statChecked (file : String)
  | harvested (importPath : String)
  | reflected
deriving DecidableEq

/-- Whether an event is one of the required-file existence checks. -/
def GenEvent.isStatChecked : GenEvent → Bool
  | .statChecked _ => true
  | _ => false

structure GenEnv where
  resolve : Except String (List ImportPath)
  statOk : String → Bool
  cenv : CommentEnv
  reflectAndMarshal : List (String × String) → Except String String

/-- The `os.Stat` loop over `filesThatMustExist`: check each file in order
and fail on the first missing one. -/
def checkFiles (statOk : String → Bool) :
    List String → Except String Unit × List GenEvent
  | [] => (.ok (), [])
  | f :: fs =>
    if statOk f then
      let r := checkFiles statOk fs
      (r.1, .statChecked f :: r.2)
    else (.error ("stat " ++ f ++ ": no such file"), [.statChecked f])

/-- The `addGoCommentsForImportPath` loop of `Generate`: harvest comments
for every resolved import path into the shared comment map, stopping at the
first failure. -/
def harvestAll (cenv : CommentEnv) :
    List ImportPath → List (String × String) →
    Except String (List (String × String)) × List GenEvent
  | [], m => (.ok m, [])
  | ip :: ips, m =>
    match addGoCommentsForImportPath cenv ip m with
    | .error e => (.error e, [.harvested ip.ModuleImportPath])
    | .ok m1 =>
      let r := harvestAll cenv ips m1
      (r.1, .harvested ip.ModuleImportPath :: r.2)

/-- Models `generator.Generate`: resolve the import paths, verify the required
files exist, harvest comments for every import path into a fresh reflector,
then reflect and serialize the model.  The second component is the trace of
effects after import-path resolution. -/
def generate (env : GenEnv) (filesThatMustExist : List String) :
    Except String String × List GenEvent :=
  match env.resolve with
  | .error e => (.error e, [])
  | .ok importPaths =>
    let chk := checkFiles env.statOk filesThatMustExist
    match chk.1 with
    | .error e => (.error e, chk.2)
    | .ok _ =>
      let hv := harvestAll env.cenv importPaths []
      match hv.1 with
      | .error e => (.error e, chk.2 ++ hv.2)
      | .ok m =>
        match env.reflectAndMarshal m with
        | .error e => (.error e, chk.2 ++ hv.2)
        | .ok out => (.ok out, chk.2 ++ hv.2 ++ [.reflected])

/-! ## Batch writing

`generator.WriteSchemas` is modelled with `WriteEnv.write`, the outcome of
`WriteSchema` (generation plus file write) per model and target path, and a
trace of the write attempts actually made. -/

structure WriteEnv where
  write : Option GoType → String → Except String Unit

/-- The output path `WriteSchemas` derives for a model with filename
`filename`. -/
def schemaPath (outputDir filename : String) : String :=
  pathJoin outputDir (filename ++ ".schema.json")

/-- Models `generator.WriteSchemas`: derive a filename per model, skip models
whose filename cannot be derived, write each remaining model and abort the
batch on the first failure.  (Go's early return for an empty model list is
behaviorally the identity and is not a separate case.)  The second
component is the list of write attempts made, in order. -/
def writeSchemas (env : WriteEnv) (outputDir : String) :
    List (Option GoType) → Except String Unit × List (Option GoType × String)
  | [] => (.ok (), [])
  | m :: ms =>
    let filename := toString m
    if filename = "" then writeSchemas env outputDir ms
    else
      match env.write m (schemaPath outputDir filename) with
      | .error e => (.error e, [(m, schemaPath outputDir filename)])
      | .ok _ =>
        let r := writeSchemas env outputDir ms
        (r.1, (m, schemaPath outputDir filename) :: r.2)

/-- The write attempts `writeSchemas` makes for a list of models when no
write fails: one per model with a derivable filename, in order. -/
def writeAttempts (outputDir : String) (models : List (Option GoType)) :
    List (Option GoType × String) :=
  models.filterMap (fun m =>
    if toString m = "" then none
    else some (m, schemaPath outputDir (toString m)))

/-! ## Concrete type descriptors

Descriptors for the concrete Go types exercised by the repository's tests:
`time.Time` (a struct in package `time` whose location field points into
further `time` structs), `uuid.UUID` (a defined array type), the test-local
`nested` struct of `TestCollectDependentPackages`, `example.Subject`, and
the unexported local `wrapper` struct of `TestToStringAndExportedName`. -/

def timeZone : GoType :=
  .structT "time" "zone" (.cons (.prim "" "string")
    (.cons (.prim "" "int32") (.cons (.prim "" "bool") .nil)))

def timeLocation : GoType :=
  .structT "time" "Location" (.cons (.prim "" "string")
    (.cons (.slice "" "" timeZone) (.cons (.prim "" "string") .nil)))

def timeTime : GoType :=
  .structT "time" "Time" (.cons (.prim "" "uint64")
    (.cons (.prim "" "int64") (.cons (.ptr "" "" timeLocation) .nil)))

def uuidUUID : GoType :=
  .array "github.com/google/uuid" "UUID" (.prim "" "uint8")

def nestedType : GoType :=
  .structT "pkt.systems/schemator" "nested"
    (.cons (.ptr "" "" timeTime)
      (.cons (.slice "" "" uuidUUID)
        (.cons (.mapT "" "" (.prim "" "string") (.ptr "" "" uuidUUID)) .nil)))

def subjectType : GoType :=
  .structT "pkt.systems/schemator/example" "Subject"
    (.cons (.prim "" "int")
      (.cons (.prim "" "string")
        (.cons (.slice "" "" (.prim "" "string"))
          (.cons timeTime .nil))))

def wrapperType : GoType :=
  .structT "pkt.systems/schemator" "wrapper"
    (.cons (.slice "" "" subjectType) .nil)

/-! ## Lemmas about word splitting and sanitization -/

/-- Every word produced by `goWordsAux` from a non-whitespace accumulator
is non-empty and free of whitespace characters. -/
theorem goWordsAux_words (l : List Char) : ∀ (cur : List Char),
    (∀ c ∈ cur, isGoSpace c = false) →
    ∀ w ∈ goWordsAux cur l, w ≠ [] ∧ ∀ c ∈ w, isGoSpace c = false := by
  induction l with
  | nil =>
    intro cur hcur w hw
    by_cases h : cur = []
    · simp [goWordsAux, h] at hw
    · simp [goWordsAux, h] at hw
      subst hw
      refine ⟨by simpa using h, ?_⟩
      intro c hc
      exact hcur c (by simpa using hc)
  | cons c cs ih =>
    intro cur hcur w hw
    by_cases hsp : isGoSpace c
    · by_cases h : cur = []
      · rw [goWordsAux, if_pos hsp, if_pos h] at hw
        exact ih [] (by simp) w hw
      · rw [goWordsAux, if_pos hsp, if_neg h] at hw
        rcases List.mem_cons.mp hw with h1 | h1
        · subst h1
          refine ⟨by simpa using h, ?_⟩
          intro d hd
          exact hcur d (by simpa using hd)
        · exact ih [] (by simp) w h1
    · rw [goWordsAux, if_neg hsp] at hw
      refine ih (c :: cur) ?_ w hw
      intro d hd
      rcases List.mem_cons.mp hd with h1 | h1
      · subst h1; simpa using hsp
      · exact hcur d h1

/-- Feeding a whitespace-free word into `goWordsAux` just extends the
accumulator. -/
theorem goWordsAux_append_word (w : List Char) : ∀ (cur l : List Char),
    (∀ c ∈ w, isGoSpace c = false) →
    goWordsAux cur (w ++ l) = goWordsAux (w.reverse ++ cur) l := by
  induction w with
  | nil => intro cur l _; simp
  | cons c w' ih =>
    intro cur l hw
    have hc : isGoSpace c = false := hw c (by simp)
    rw [List.cons_append, goWordsAux, if_neg (by simp [hc])]
    rw [ih (c :: cur) l (fun d hd => hw d (by simp [hd]))]
    simp

/-- Splitting a single-space join of non-empty whitespace-free words
recovers the words. -/
theorem goWords_joinWith : ∀ (ws : List (List Char)),
    (∀ w ∈ ws, w ≠ [] ∧ ∀ c ∈ w, isGoSpace c = false) →
    goWords (joinWith ' ' ws) = ws := by
  intro ws
  induction ws with
  | nil => intro _; rfl
  | cons w ws' ih =>
    intro h
    obtain ⟨hw, hwc⟩ := h w (by simp)
    match ws' with
    | [] =>
      show goWordsAux [] (joinWith ' ' [w]) = [w]
      have : joinWith ' ' [w] = w ++ [] := by simp [joinWith]
      rw [this, goWordsAux_append_word w [] [] hwc]
      rw [List.append_nil, goWordsAux, if_neg (by simpa using hw)]
      simp
    | w' :: ws'' =>
      show goWordsAux [] (joinWith ' ' (w :: w' :: ws'')) = w :: w' :: ws''
      rw [show joinWith ' ' (w :: w' :: ws'') =
            w ++ ' ' :: joinWith ' ' (w' :: ws'') from rfl]
      rw [goWordsAux_append_word w [] _ hwc, List.append_nil]
      rw [goWordsAux, if_pos (by decide), if_neg (by simpa using hw)]
      rw [List.reverse_reverse]
      have := ih (fun x hx => h x (by simp [hx]))
      rw [show goWords (joinWith ' ' (w' :: ws'')) = goWordsAux [] (joinWith ' ' (w' :: ws'')) from rfl] at this
      rw [this]

/-- Sanitizing a comment twice is the same as sanitizing it once. -/
theorem sanitize_sanitize (s : String) :
    sanitizeCommentText (sanitizeCommentText s) = sanitizeCommentText s := by
  have key : ∀ l : List Char,
      sanitizeCommentText (String.mk (joinWith ' ' (goWords l))) =
        String.mk (joinWith ' ' (goWords l)) := by
    intro l
    by_cases ht : String.mk (joinWith ' ' (goWords l)) = ""
    · rw [sanitizeCommentText, if_pos ht]
    · rw [sanitizeCommentText, if_neg ht]
      have hdata : (String.mk (joinWith ' ' (goWords l))).data =
          joinWith ' ' (goWords l) := rfl
      rw [hdata, goWords_joinWith (goWords l)
        (goWordsAux_words l [] (by simp))]
  by_cases h : s = ""
  · simp [sanitizeCommentText, h]
  · rw [show sanitizeCommentText s = String.mk (joinWith ' ' (goWords s.data))
      from by rw [sanitizeCommentText, if_neg h]]
    exact key s.data

/-- C10: comment-string sanitization is idempotent: applying the
whitespace-collapsing normalization twice yields the same result as
applying it once, so re-sanitizing an already-sanitized comment never
changes it. -/
theorem sanitizeCommentText_idempotent (s : String) :
    sanitizeCommentText (sanitizeCommentText s) = sanitizeCommentText s :=
  sanitize_sanitize s

/-- Every value of a sanitized comment map is its own sanitized form. -/
theorem sanitizeCommentMap_values (m : List (String × String)) :
    ∀ kv ∈ sanitizeCommentMap m, kv.2 = sanitizeCommentText kv.2 := by
  intro kv hkv
  rcases List.mem_map.mp hkv with ⟨x, _, hx⟩
  by_cases hc : sanitizeCommentText x.2 ≠ x.2
  · rw [if_pos hc] at hx
    rw [← hx]
    exact (sanitize_sanitize x.2).symm
  · rw [if_neg hc] at hx
    rw [← hx]
    exact (Decidable.not_not.mp hc).symm

/-- C6: after comment harvesting for an import path completes successfully,
every comment string in the reflector's comment map has all internal runs
of whitespace and newlines collapsed to single spaces, i.e. every value is
a fixed point of the whitespace-collapsing sanitization. -/
theorem addGoComments_values_sanitized (env : CommentEnv) (ip : ImportPath)
    (m m' : List (String × String))
    (h : addGoCommentsForImportPath env ip m = .ok m') :
    ∀ kv ∈ m', kv.2 = sanitizeCommentText kv.2 := by
  unfold addGoCommentsForImportPath at h
  split at h
  · simp at h
  · split at h
    · simp at h
    · split at h
      · cases hadd : env.add ip.ModuleImportPath (pathClean ip.SourceDirectory) m with
        | error e => rw [hadd] at h; simp at h
        | ok m1 =>
          rw [hadd] at h
          cases h
          exact sanitizeCommentMap_values m1
      · split at h
        · simp at h
        · split at h
          · simp at h
          · cases h
            exact sanitizeCommentMap_values _

/-- A comment-harvesting oracle that returns one doc comment wrapped over
two lines, mirroring `TestAddGoCommentsForImportPathWithAbsoluteDir`. -/
def demoCommentEnv : CommentEnv where
  add := fun _ _ m =>
    .ok (m ++ [("example.com/temp/foo.DemoType.Info",
      "Info summary line.\nWrapped onto a new line.")])
  chdirOk := fun _ => true

/-- Witness for C6: harvesting a two-line doc comment through an absolute
source directory yields the single-spaced sentence, and that value is a
fixed point of sanitization. -/
theorem addGoComments_values_sanitized_witness :
    addGoCommentsForImportPath demoCommentEnv
        ⟨"example.com/temp/foo", "/tmp/foo"⟩ [] =
      .ok [("example.com/temp/foo.DemoType.Info",
        "Info summary line. Wrapped onto a new line.")] ∧
    "Info summary line. Wrapped onto a new line." =
      sanitizeCommentText "Info summary line. Wrapped onto a new line." := by
  have heval : addGoCommentsForImportPath demoCommentEnv
      ⟨"example.com/temp/foo", "/tmp/foo"⟩ [] =
      .ok [("example.com/temp/foo.DemoType.Info",
        "Info summary line. Wrapped onto a new line.")] := by decide
  refine ⟨heval, ?_⟩
  exact addGoComments_values_sanitized demoCommentEnv
    ⟨"example.com/temp/foo", "/tmp/foo"⟩ [] _ heval
    ("example.com/temp/foo.DemoType.Info",
      "Info summary line. Wrapped onto a new line.") (by simp)

/-! ## Filename derivation and batch writing -/

/-- C8: output-filename derivation yields the bare type name for a named
exported type after unwrapping top-level pointers; the element type name
plus the `Slice` suffix for a slice or array (that is not itself a named
exported type) whose pointer-unwrapped element is a named exported type;
and the empty string otherwise — and `writeSchemas` skips a model with an
empty filename without returning an error. -/
theorem toString_filename_spec :
    toString none = "" ∧
    (∀ t n, exportedName (stripPtrs t) = n → n ≠ "" → toString (some t) = n) ∧
    (∀ t e n, exportedName (stripPtrs t) = "" →
        sliceOrArrayElem (stripPtrs t) = some e →
        exportedName (stripPtrs e) = n → n ≠ "" →
        toString (some t) = n ++ "Slice") ∧
    (∀ t, exportedName (stripPtrs t) = "" →
        (∀ e, sliceOrArrayElem (stripPtrs t) = some e →
          exportedName (stripPtrs e) = "") →
        toString (some t) = "") ∧
    (∀ env outputDir m ms, toString m = "" →
        writeSchemas env outputDir (m :: ms) = writeSchemas env outputDir ms) := by
  refine ⟨rfl, ?_, ?_, ?_, ?_⟩
  · intro t n h hn
    simp only [toString, h]
    rw [if_pos hn]
  · intro t e n h0 he h2 hn
    simp only [toString, h0, he]
    rw [if_neg (by simp), h2, if_pos hn]
  · intro t h0 hel
    simp only [toString, h0]
    rw [if_neg (by simp)]
    cases he : sliceOrArrayElem (stripPtrs t) with
    | none => rfl
    | some e => simp [hel e he]
  · intro env outputDir m ms hm
    rw [writeSchemas, if_pos hm]

/-- Witness for C8: the exported `Subject` struct yields `Subject` (also
through a pointer), a slice of pointers to it yields `SubjectSlice`, and
the unexported `wrapper` struct yields the empty filename, which
`writeSchemas` skips without error. -/
theorem toString_filename_spec_witness :
    toString (some subjectType) = "Subject" ∧
    toString (some (.ptr "" "" subjectType)) = "Subject" ∧
    toString (some (.slice "" "" (.ptr "" "" subjectType))) = "SubjectSlice" ∧
    toString (some wrapperType) = "" ∧
    writeSchemas ⟨fun _ _ => .error "never"⟩ "out" [some wrapperType] =
      (.ok (), []) := by
  obtain ⟨-, h1, h2, h3, h4⟩ := toString_filename_spec
  refine ⟨h1 subjectType "Subject" (by decide) (by decide),
    h1 (.ptr "" "" subjectType) "Subject" (by decide) (by decide),
    h2 (.slice "" "" (.ptr "" "" subjectType)) (.ptr "" "" subjectType)
      "Subject" (by decide) (by decide) (by decide) (by decide),
    h3 wrapperType (by decide) ?_, ?_⟩
  · intro e he
    have : sliceOrArrayElem (stripPtrs wrapperType) = none := by decide
    rw [this] at he
    cases he
  · have hskip := h4 ⟨fun _ _ => .error "never"⟩ "out" (some wrapperType) []
      (h3 wrapperType (by decide) (fun e he => by
        have : sliceOrArrayElem (stripPtrs wrapperType) = none := by decide
        rw [this] at he
        cases he))
    rw [hskip]
    rfl

/-- C9: `writeSchemas` has no partial-success mode: when every earlier
model is either skipped or written successfully and a model's write fails,
the batch returns that error, and the attempted writes are exactly those of
the earlier models followed by the failing one — nothing after it is
processed. -/
theorem writeSchemas_first_error_aborts (env : WriteEnv) (outputDir : String)
    (pre post : List (Option GoType)) (m : Option GoType) (e : String)
    (hpre : ∀ x ∈ pre, toString x = "" ∨
        env.write x (schemaPath outputDir (toString x)) = .ok ())
    (hm : toString m ≠ "")
    (hw : env.write m (schemaPath outputDir (toString m)) = .error e) :
    writeSchemas env outputDir (pre ++ m :: post) =
      (.error e, writeAttempts outputDir pre ++
        [(m, schemaPath outputDir (toString m))]) := by
  induction pre with
  | nil =>
    rw [List.nil_append, writeSchemas, if_neg hm, hw]
    simp [writeAttempts]
  | cons x pre' ih =>
    have ihx := ih (fun y hy => hpre y (by simp [hy]))
    by_cases hx0 : toString x = ""
    · rw [List.cons_append, writeSchemas, if_pos hx0, ihx]
      simp [writeAttempts, hx0]
    · have hx : env.write x (schemaPath outputDir (toString x)) = .ok () := by
        rcases hpre x (by simp) with h | h
        · exact absurd h hx0
        · exact h
      rw [List.cons_append, writeSchemas, if_neg hx0, hx, ihx]
      simp [writeAttempts, hx0]

/-- A `WriteSchema` oracle whose every write fails. -/
def failingWriteEnv : WriteEnv where
  write := fun _ _ => .error "disk full"

/-- Witness for C9: with a batch of a skipped model, a failing model and a
further model, the batch stops at the failing model and the later model is
never attempted. -/
theorem writeSchemas_first_error_aborts_witness :
    toString (some subjectType) ≠ "" ∧
    writeSchemas failingWriteEnv "out"
        [some wrapperType, some subjectType, some timeTime] =
      (.error "disk full",
        [(some subjectType, schemaPath "out" (toString (some subjectType)))]) := by
  have happ := writeSchemas_first_error_aborts failingWriteEnv "out"
    [some wrapperType] [some timeTime] (some subjectType) "disk full"
    (fun x hx => by
      rw [List.mem_singleton.mp hx]
      exact Or.inl (by decide))
    (by decide) rfl
  refine ⟨by decide, ?_⟩
  rw [show ([some wrapperType, some subjectType, some timeTime] :
      List (Option GoType)) =
      [some wrapperType] ++ some subjectType :: [some timeTime] from rfl]
  rw [happ]
  rw [show writeAttempts "out" [some wrapperType] = [] from by decide]
  rw [List.nil_append]

/-! ## The required-files check of `Generate` -/

/-- Every event emitted by the required-files loop is a stat check. -/
theorem checkFiles_events (statOk : String → Bool) (files : List String) :
    ∀ ev ∈ (checkFiles statOk files).2, ev.isStatChecked = true := by
  induction files with
  | nil => simp [checkFiles]
  | cons f fs ih =>
    intro ev hev
    rw [checkFiles] at hev
    by_cases h : statOk f = true
    · rw [if_pos h] at hev
      rcases List.mem_cons.mp hev with h1 | h1
      · subst h1; rfl
      · exact ih ev h1
    · rw [if_neg h] at hev
      rw [List.mem_singleton.mp hev]
      rfl

/-- The required-files loop fails when some listed file is missing. -/
theorem checkFiles_missing (statOk : String → Bool) (files : List String)
    (h : ∃ f ∈ files, statOk f = false) :
    (checkFiles statOk files).1.isOk = false := by
  induction files with
  | nil => simp at h
  | cons f fs ih =>
    rw [checkFiles]
    by_cases hf : statOk f = true
    · rw [if_pos hf]
      apply ih
      rcases h with ⟨g, hg, hgf⟩
      rcases List.mem_cons.mp hg with h1 | h1
      · subst h1; rw [hf] at hgf; cases hgf
      · exact ⟨g, h1, hgf⟩
    · rw [if_neg hf]; rfl

/-- C7: when any required file is missing, `Generate` returns an error (so
no schema bytes), and the only effects that have happened after import-path
resolution are stat checks — no comment harvesting and no schema
reflection. -/
theorem generate_missing_required_file (env : GenEnv) (files : List String)
    (h : ∃ f ∈ files, env.statOk f = false) :
    (generate env files).1.isOk = false ∧
    ∀ ev ∈ (generate env files).2, ev.isStatChecked = true := by
  cases hres : env.resolve with
  | error e => simp [generate, hres, Except.isOk, Except.toBool]
  | ok ips =>
    have hfail := checkFiles_missing env.statOk files h
    cases hchk : (checkFiles env.statOk files).1 with
    | error e =>
      constructor
      · simp [generate, hres, hchk, Except.isOk, Except.toBool]
      · intro ev hev
        have h2 : (generate env files).2 = (checkFiles env.statOk files).2 := by
          simp [generate, hres, hchk]
        rw [h2] at hev
        exact checkFiles_events env.statOk files ev hev
    | ok u =>
      rw [hchk] at hfail
      cases hfail

/-- A generator environment whose required file is always missing. -/
def missingFileGenEnv : GenEnv where
  resolve := .ok [⟨"pkt.systems/schemator", "/src/schemator"⟩]
  statOk := fun _ => false
  cenv := demoCommentEnv
  reflectAndMarshal := fun _ => .ok "SCHEMA"

/-- Witness for C7: with one missing required file, `Generate` fails and
its trace is exactly the single stat check. -/
theorem generate_missing_required_file_witness :
    (generate missingFileGenEnv ["does-not-exist"]).1.isOk = false ∧
    (generate missingFileGenEnv ["does-not-exist"]).2 =
      [.statChecked "does-not-exist"] := by
  have h := generate_missing_required_file missingFileGenEnv ["does-not-exist"]
    ⟨"does-not-exist", by simp, rfl⟩
  exact ⟨h.1, by decide⟩

/-! ## The external directory resolver -/

/-- The head of a `dropWhile` result does not satisfy the predicate. -/
theorem dropWhile_head_false (p : α → Bool) (l : List α) (a : α) (t : List α)
    (h : l.dropWhile p = a :: t) : p a = false := by
  have h2 := List.head?_dropWhile_not p l
  rw [h] at h2
  simpa using h2

/-- Trimming only removes a whitespace suffix of the left-trimmed list. -/
theorem trim_append_back (m : List Char) :
    (m.reverse.dropWhile isGoSpace).reverse ++
      (m.reverse.takeWhile isGoSpace).reverse = m := by
  rw [← List.reverse_append, List.takeWhile_append_dropWhile, List.reverse_reverse]

/-- The first character of a trimmed string is not whitespace. -/
theorem goTrimChars_head_false (l : List Char) (a : Char) (t : List Char)
    (h : goTrimChars l = a :: t) : isGoSpace a = false := by
  have key := trim_append_back (l.dropWhile isGoSpace)
  rw [show ((l.dropWhile isGoSpace).reverse.dropWhile isGoSpace).reverse =
      goTrimChars l from rfl, h, List.cons_append] at key
  exact dropWhile_head_false isGoSpace l a _ key.symm

/-- A non-empty trimmed output has a non-empty first line. -/
theorem goTrimChars_takeWhile_ne (l : List Char) (h : goTrimChars l ≠ []) :
    (goTrimChars l).takeWhile notNewline ≠ [] := by
  cases hg : goTrimChars l with
  | nil => exact absurd hg h
  | cons a t =>
    have ha := goTrimChars_head_false l a t hg
    have han : notNewline a = true := by
      simp only [notNewline, ne_eq, decide_not, Bool.not_eq_eq_eq_not,
        Bool.not_true, decide_eq_false_iff_not]
      intro hcon
      subst hcon
      simp [isGoSpace] at ha
    simp [List.takeWhile_cons, han]

/-- Evaluates `lookupPackageDir` when the command fails. -/
theorem lookupPackageDir_run_error (run : String → String → Except String String)
    (importPath workDir e : String) (h : run importPath workDir = .error e) :
    lookupPackageDir run importPath workDir =
      .error ("go list " ++ importPath ++ " failed: " ++ e) := by
  unfold lookupPackageDir
  rw [h]

/-- Evaluates `lookupPackageDir` when the command succeeds. -/
theorem lookupPackageDir_run_ok (run : String → String → Except String String)
    (importPath workDir out : String) (h : run importPath workDir = .ok out) :
    lookupPackageDir run importPath workDir = parseGoListLine importPath out := by
  unfold lookupPackageDir
  rw [h]

/-- Evaluates `parseGoListLine` on blank output. -/
theorem parseGoListLine_blank (importPath out : String)
    (h : (goTrimChars out.data).takeWhile notNewline = []) :
    parseGoListLine importPath out =
      .error ("go list " ++ importPath ++ " returned empty output") := by
  simp only [parseGoListLine]
  rw [if_pos h]

/-- Evaluates `parseGoListLine` on non-blank output. -/
theorem parseGoListLine_line (importPath out : String)
    (h : ¬ (goTrimChars out.data).takeWhile notNewline = []) :
    parseGoListLine importPath out =
      .ok (String.mk (goTrimChars ((splitOnChar '\t'
            ((goTrimChars out.data).takeWhile notNewline)).headD [])),
        decide (1 < (splitOnChar '\t'
            ((goTrimChars out.data).takeWhile notNewline)).length ∧
          (splitOnChar '\t'
            ((goTrimChars out.data).takeWhile notNewline)).getD 1 [] =
            "true".data)) := by
  simp only [parseGoListLine]
  rw [if_neg h]

/-- C5: the external directory resolver fails exactly when the command
fails or its (whitespace-trimmed) output is empty; on success it parses
only the first line of the trimmed output, splitting it on tabs into the
directory (which it returns, trimmed) and the standard-library boolean. -/
theorem lookupPackageDir_spec (run : String → String → Except String String)
    (importPath workDir : String) :
    ((lookupPackageDir run importPath workDir).isOk = true ↔
      ∃ out, run importPath workDir = .ok out ∧ goTrimChars out.data ≠ []) ∧
    (∀ out d b, run importPath workDir = .ok out →
        lookupPackageDir run importPath workDir = .ok (d, b) →
        d = String.mk (goTrimChars ((splitOnChar '\t'
              ((goTrimChars out.data).takeWhile notNewline)).headD [])) ∧
        b = decide (1 < (splitOnChar '\t'
              ((goTrimChars out.data).takeWhile notNewline)).length ∧
            (splitOnChar '\t' ((goTrimChars out.data).takeWhile
              notNewline)).getD 1 [] = "true".data)) := by
  constructor
  · constructor
    · intro hok
      cases hrun : run importPath workDir with
      | error e =>
        rw [lookupPackageDir_run_error run importPath workDir e hrun] at hok
        simp [Except.isOk, Except.toBool] at hok
      | ok out =>
        refine ⟨out, rfl, ?_⟩
        intro hnil
        have hline : (goTrimChars out.data).takeWhile notNewline = [] := by
          rw [hnil]; rfl
        rw [lookupPackageDir_run_ok run importPath workDir out hrun,
          parseGoListLine_blank importPath out hline] at hok
        simp [Except.isOk, Except.toBool] at hok
    · rintro ⟨out, hout, hne⟩
      rw [lookupPackageDir_run_ok run importPath workDir out hout,
        parseGoListLine_line importPath out
          (goTrimChars_takeWhile_ne out.data hne)]
      rfl
  · intro out d b hout hok
    rw [lookupPackageDir_run_ok run importPath workDir out hout] at hok
    by_cases hline : (goTrimChars out.data).takeWhile notNewline = []
    · rw [parseGoListLine_blank importPath out hline] at hok
      cases hok
    · rw [parseGoListLine_line importPath out hline] at hok
      cases hok
      exact ⟨rfl, rfl⟩

/-- A `go list` oracle answering with a directory, the standard-library
flag, and a trailing second line that must be ignored. -/
def demoRunEnv : String → String → Except String String :=
  fun _ _ => .ok " /usr/lib/go/src/time\ttrue\nignored second line\n"

/-- Witness for C5: the resolver succeeds on the two-line output above,
returns the tab-separated directory of the first line only, and the
success criterion of the specification evaluates as stated. -/
theorem lookupPackageDir_spec_witness :
    ((lookupPackageDir demoRunEnv "time" "/work").isOk = true ↔
      ∃ out, demoRunEnv "time" "/work" = .ok out ∧ goTrimChars out.data ≠ []) ∧
    lookupPackageDir demoRunEnv "time" "/work" =
      .ok ("/usr/lib/go/src/time", true) := by
  refine ⟨(lookupPackageDir_spec demoRunEnv "time" "/work").1, by decide⟩

/-! ## Dependent-package collection -/

/-- The relation `charListLe` is total. -/
theorem charListLe_total : ∀ as bs : List Char,
    charListLe as bs = true ∨ charListLe bs as = true := by
  intro as
  induction as with
  | nil => intro bs; exact Or.inl rfl
  | cons a as' ih =>
    intro bs
    cases bs with
    | nil => exact Or.inr rfl
    | cons b bs' =>
      by_cases hab : a = b
      · subst hab
        rcases ih bs' with h | h
        · exact Or.inl (by rw [charListLe, if_pos rfl]; exact h)
        · exact Or.inr (by rw [charListLe, if_pos rfl]; exact h)
      · rcases lt_or_gt_of_ne hab with hlt | hlt
        · exact Or.inl (by rw [charListLe, if_neg hab]; simpa using hlt)
        · refine Or.inr ?_
          rw [charListLe, if_neg (Ne.symm hab)]
          simpa using hlt

/-- The relation `charListLe` is transitive. -/
theorem charListLe_trans : ∀ as bs cs : List Char,
    charListLe as bs = true → charListLe bs cs = true →
    charListLe as cs = true := by
  intro as
  induction as with
  | nil => intro bs cs _ _; rfl
  | cons a as' ih =>
    intro bs cs h1 h2
    cases bs with
    | nil => rw [charListLe] at h1; cases h1
    | cons b bs' =>
      cases cs with
      | nil => rw [charListLe] at h2; cases h2
      | cons c cs' =>
        rw [charListLe] at h1 h2 ⊢
        by_cases hab : a = b
        · subst hab
          rw [if_pos rfl] at h1
          by_cases hbc : a = c
          · subst hbc
            rw [if_pos rfl] at h2 ⊢
            exact ih bs' cs' h1 h2
          · rw [if_neg hbc] at h2 ⊢
            exact h2
        · rw [if_neg hab] at h1
          have hlt1 : a < b := by simpa using h1
          by_cases hbc : b = c
          · subst hbc
            rw [if_neg hab]
            simpa using hlt1
          · rw [if_neg hbc] at h2
            have hlt2 : b < c := by simpa using h2
            have hac : a < c := lt_trans hlt1 hlt2
            rw [if_neg (ne_of_lt hac)]
            simpa using hac

instance strLeIsTotal : IsTotal String (fun a b => strLe a b = true) :=
  ⟨fun a b => charListLe_total a.data b.data⟩

instance strLeIsTrans : IsTrans String (fun a b => strLe a b = true) :=
  ⟨fun a b c h1 h2 => charListLe_trans a.data b.data c.data h1 h2⟩

/-- The insertion `addPkg` preserves duplicate-freeness of the package list. -/
theorem addPkg_nodup (p : String) (pkgs : List String) (h : pkgs.Nodup) :
    (addPkg p pkgs).Nodup := by
  unfold addPkg
  by_cases h0 : p = ""
  · rw [if_pos h0]; exact h
  · rw [if_neg h0]
    by_cases hm : p ∈ pkgs
    · rw [if_pos hm]; exact h
    · rw [if_neg hm]; exact List.nodup_cons.mpr ⟨hm, h⟩

mutual
/-- The visitor preserves duplicate-freeness of both the package list and
the identity-keyed visited set. -/
theorem visitType_nodup : ∀ (t : GoType) (st : VisitState),
    st.pkgs.Nodup → st.visited.Nodup →
    (visitType t st).pkgs.Nodup ∧ (visitType t st).visited.Nodup
  | .ptr p n e, st, h1, h2 => by
    simp only [visitType]
    exact visitType_nodup e st h1 h2
  | .prim p n, st, h1, h2 => by
    simp only [visitType]
    by_cases hm : GoType.prim p n ∈ st.visited
    · rw [if_pos hm]; exact ⟨h1, h2⟩
    · rw [if_neg hm]
      exact ⟨addPkg_nodup _ _ h1, List.nodup_cons.mpr ⟨hm, h2⟩⟩
  | .slice p n e, st, h1, h2 => by
    simp only [visitType]
    by_cases hm : GoType.slice p n e ∈ st.visited
    · rw [if_pos hm]; exact ⟨h1, h2⟩
    · rw [if_neg hm]
      exact visitType_nodup e _ (addPkg_nodup _ _ h1)
        (List.nodup_cons.mpr ⟨hm, h2⟩)
  | .array p n e, st, h1, h2 => by
    simp only [visitType]
    by_cases hm : GoType.array p n e ∈ st.visited
    · rw [if_pos hm]; exact ⟨h1, h2⟩
    · rw [if_neg hm]
      exact visitType_nodup e _ (addPkg_nodup _ _ h1)
        (List.nodup_cons.mpr ⟨hm, h2⟩)
  | .mapT p n k v, st, h1, h2 => by
    simp only [visitType]
    by_cases hm : GoType.mapT p n k v ∈ st.visited
    · rw [if_pos hm]; exact ⟨h1, h2⟩
    · rw [if_neg hm]
      have hk := visitType_nodup k
        ⟨addPkg (GoType.mapT p n k v).pkgPath st.pkgs,
          GoType.mapT p n k v :: st.visited⟩
        (addPkg_nodup _ _ h1) (List.nodup_cons.mpr ⟨hm, h2⟩)
      exact visitType_nodup v _ hk.1 hk.2
  | .structT p n fields, st, h1, h2 => by
    simp only [visitType]
    by_cases hm : GoType.structT p n fields ∈ st.visited
    · rw [if_pos hm]; exact ⟨h1, h2⟩
    · rw [if_neg hm]
      exact visitFields_nodup fields _ (addPkg_nodup _ _ h1)
        (List.nodup_cons.mpr ⟨hm, h2⟩)

/-- The field loop preserves duplicate-freeness. -/
theorem visitFields_nodup : ∀ (fs : GoTypeList) (st : VisitState),
    st.pkgs.Nodup → st.visited.Nodup →
    (visitFields fs st).pkgs.Nodup ∧ (visitFields fs st).visited.Nodup
  | .nil, st, h1, h2 => by
    simp only [visitFields]
    exact ⟨h1, h2⟩
  | .cons f fs, st, h1, h2 => by
    simp only [visitFields]
    have hf := visitType_nodup f st h1 h2
    exact visitFields_nodup fs _ hf.1 hf.2
end

/-- The fold of `collectDependentPackages` produces duplicate-free package
and visited lists. -/
theorem collectState_nodup (models : List (Option GoType)) :
    (collectState models).pkgs.Nodup ∧ (collectState models).visited.Nodup := by
  suffices h : ∀ st : VisitState, st.pkgs.Nodup → st.visited.Nodup →
      ((models.foldl (fun st m =>
          match m with | none => st | some t => visitType t st) st).pkgs.Nodup ∧
        (models.foldl (fun st m =>
          match m with | none => st | some t => visitType t st) st).visited.Nodup) by
    exact h ⟨[], []⟩ (by simp) (by simp)
  induction models with
  | nil => intro st h1 h2; exact ⟨h1, h2⟩
  | cons m ms ih =>
    intro st h1 h2
    cases m with
    | none => exact ih st h1 h2
    | some t =>
      have ht := visitType_nodup t st h1 h2
      exact ih _ ht.1 ht.2

/-- C2: dependent-package collection returns a lexicographically sorted,
duplicate-free list of package paths, its visited set holds each concrete
type at most once, and on the `nested` struct of the tests (a struct
holding a pointer to a time value, a slice of UUID values and a map to
pointer-to-UUID values) the time package and the UUID package each appear
exactly once despite repeated and nested references. -/
theorem collectDependentPackages_spec :
    (∀ models : List (Option GoType),
      List.Sorted (fun a b => strLe a b = true)
          (collectDependentPackages models) ∧
        (collectDependentPackages models).Nodup ∧
        (collectState models).visited.Nodup) ∧
    (collectDependentPackages [some nestedType]).count "time" = 1 ∧
    (collectDependentPackages [some nestedType]).count
      "github.com/google/uuid" = 1 := by
  refine ⟨fun models => ?_, by decide, by decide⟩
  obtain ⟨hp, hv⟩ := collectState_nodup models
  refine ⟨List.sorted_insertionSort _ _, ?_, hv⟩
  have hperm := List.perm_insertionSort (fun a b => strLe a b = true)
    (collectState models).pkgs
  exact hperm.symm.nodup hp

/-! ## The module locator and import-path inference -/

/-- When no directory on the upward walk (`dir.tails` are exactly the
directory and its ancestors up to the root) holds a `go.mod`, the walk
fails. -/
theorem findModulePathAux_no_gomod (fs : List String → Option (List String))
    (startDir : List String) : ∀ dir : List String,
    (∀ d ∈ dir.tails, fs d = none) →
    findModulePathAux fs startDir dir =
      .error ("go.mod not found starting from " ++ renderPath startDir) := by
  intro dir
  induction dir with
  | nil =>
    intro h
    rw [findModulePathAux, h [] (by simp)]
  | cons s parent ih =>
    intro h
    rw [findModulePathAux, h (s :: parent) (by rw [List.tails_cons]; simp)]
    exact ih (fun d hd => h d (by rw [List.tails_cons]; exact List.mem_cons_of_mem _ hd))

/-- The scan `parseModuleDirective` extracts the second field of the first line that
begins with the `module ` keyword. -/
theorem parseModuleDirective_first (pre : List String) :
    ∀ (l : String) (post : List String),
    (∀ x ∈ pre, moduleKeyword.isPrefixOf (goTrimChars x.data) = false) →
    moduleKeyword.isPrefixOf (goTrimChars l.data) = true →
    ¬ (goWords (goTrimChars l.data)).length < 2 →
    parseModuleDirective (pre ++ l :: post) =
      .ok (String.mk ((goWords (goTrimChars l.data)).getD 1 [])) := by
  induction pre with
  | nil =>
    intro l post _ hl hlen
    rw [List.nil_append]
    simp only [parseModuleDirective]
    rw [if_pos hl, if_neg hlen]
  | cons x pre' ih =>
    intro l post hpre hl hlen
    rw [List.cons_append]
    simp only [parseModuleDirective]
    rw [if_neg (by rw [hpre x (by simp)]; exact Bool.false_ne_true)]
    exact ih l post (fun y hy => hpre y (by simp [hy])) hl hlen

/-- C3: when no directory from the start directory up to the filesystem
root holds a `go.mod`, the module locator fails and so the local
path inference fails too; and when a `go.mod` is found, the module name
is the second field of its first line beginning with the `module`
keyword. -/
theorem findModulePath_spec :
    (∀ (env : Env) (dir : List String),
      (∀ d ∈ dir.tails, env.fs d = none) →
      findModulePath env.fs dir =
        .error ("go.mod not found starting from " ++ renderPath dir) ∧
      inferLocalImportPath env dir =
        .error ("go.mod not found starting from " ++ renderPath dir)) ∧
    (∀ (fs : List String → Option (List String)) (dir : List String)
        (pre : List String) (l : String) (post : List String),
      fs dir = some (pre ++ l :: post) →
      (∀ x ∈ pre, moduleKeyword.isPrefixOf (goTrimChars x.data) = false) →
      moduleKeyword.isPrefixOf (goTrimChars l.data) = true →
      ¬ (goWords (goTrimChars l.data)).length < 2 →
      findModulePath fs dir =
        .ok (dir, String.mk ((goWords (goTrimChars l.data)).getD 1 []))) := by
  constructor
  · intro env dir h
    have hfail := findModulePathAux_no_gomod env.fs dir dir h
    refine ⟨hfail, ?_⟩
    simp only [inferLocalImportPath, findModulePath] at hfail ⊢
    rw [hfail]
  · intro fs dir pre l post hfs hpre hl hlen
    have hparse := parseModuleDirective_first pre l post hpre hl hlen
    cases dir with
    | nil =>
      rw [findModulePath]
      simp only [findModulePathAux, hfs, foundModule, hparse]
    | cons s parent =>
      rw [findModulePath]
      simp only [findModulePathAux, hfs, foundModule, hparse]

/-- An environment with no `go.mod` anywhere. -/
def envNoMod : Env where
  fs := fun _ => none
  detectPackageName := fun _ => .ok "foo"
  run := fun _ _ => .error "exit 1"

/-- A filesystem with a `go.mod` declaring `module example.com/m` at the
root and nowhere else. -/
def fsRootMod : List String → Option (List String) :=
  fun d => if d = [] then
    some ["// example module", "module example.com/m"]
  else none

/-- Witness for C3: inference fails without a `go.mod`, and the locator
extracts the module name from the directive line behind a comment line. -/
theorem findModulePath_spec_witness :
    findModulePath envNoMod.fs ["foo"] =
      .error ("go.mod not found starting from " ++ renderPath ["foo"]) ∧
    inferLocalImportPath envNoMod ["foo"] =
      .error ("go.mod not found starting from " ++ renderPath ["foo"]) ∧
    findModulePath fsRootMod [] = .ok ([], "example.com/m") := by
  obtain ⟨h1, h2⟩ := findModulePath_spec.1 envNoMod ["foo"] (fun d _ => rfl)
  refine ⟨h1, h2, ?_⟩
  have h3 := findModulePath_spec.2 fsRootMod [] ["// example module"]
    "module example.com/m" [] rfl (by decide) (by decide) (by decide)
  rw [h3]
  decide

/-- The module locator only ever answers with the start directory or one of
its ancestors. -/
theorem findModulePathAux_suffix (fs : List String → Option (List String))
    (startDir : List String) : ∀ (dir mdir : List String) (m : String),
    findModulePathAux fs startDir dir = .ok (mdir, m) → mdir <:+ dir := by
  intro dir
  induction dir with
  | nil =>
    intro mdir m h
    rw [findModulePathAux] at h
    cases hfs : fs [] with
    | none => simp [hfs] at h
    | some c =>
      simp only [hfs, foundModule] at h
      cases hp : parseModuleDirective c with
      | error e => simp [hp] at h
      | ok mp =>
        simp only [hp, Except.ok.injEq, Prod.mk.injEq] at h
        rw [← h.1]
  | cons s parent ih =>
    intro mdir m h
    rw [findModulePathAux] at h
    cases hfs : fs (s :: parent) with
    | none =>
      simp only [hfs] at h
      exact (ih mdir m h).trans (List.suffix_cons s parent)
    | some c =>
      simp only [hfs, foundModule] at h
      cases hp : parseModuleDirective c with
      | error e => simp [hp] at h
      | ok mp =>
        simp only [hp, Except.ok.injEq, Prod.mk.injEq] at h
        rw [← h.1]

/-- The relative-path step `filepath.Rel` succeeds on the ancestor returned by the module
locator. -/
theorem relFromAncestor_of_suffix (dir mdir : List String) (h : mdir <:+ dir) :
    relFromAncestor dir mdir =
      some ((dir.take (dir.length - mdir.length)).reverse) := by
  unfold relFromAncestor
  rw [if_pos (List.isSuffixOf_iff_suffix.mpr h)]

/-- A rendered absolute path is never the empty string. -/
theorem renderPath_ne_empty (dir : List String) : renderPath dir ≠ "" := by
  intro h
  have h2 := congrArg String.data h
  simp [renderPath] at h2

/-- C1: with an enclosing module declaration (module locator succeeds) and
at least one source file (package-name detection succeeds), inference first
resolves the computed import path externally; if that fails it retries the
path without the appended package-name segment and on success uses that
base path as the import path; if both resolutions fail it uses the literal
absolute source directory — and in every case the inference succeeds. -/
theorem inferLocalImportPath_fallback_chain (env : Env)
    (absSourceDir moduleDir : List String) (modulePath pkgName : String)
    (hm : findModulePath env.fs absSourceDir = .ok (moduleDir, modulePath))
    (hp : env.detectPackageName absSourceDir = .ok pkgName) :
    ∃ relSegs, relFromAncestor absSourceDir moduleDir = some relSegs ∧
      ((∀ d b, lookupPackageDir env.run
          (computedImportPath modulePath relSegs pkgName)
          (renderPath moduleDir) = .ok (d, b) →
        inferLocalImportPath env absSourceDir =
          .ok ⟨computedImportPath modulePath relSegs pkgName,
            if d = "" then renderPath absSourceDir else d⟩) ∧
      (∀ e d b, lookupPackageDir env.run
          (computedImportPath modulePath relSegs pkgName)
          (renderPath moduleDir) = .error e →
        lookupPackageDir env.run (baseImportPath modulePath relSegs)
          (renderPath moduleDir) = .ok (d, b) →
        inferLocalImportPath env absSourceDir =
          .ok ⟨baseImportPath modulePath relSegs,
            if d = "" then renderPath absSourceDir else d⟩) ∧
      (∀ e1 e2, lookupPackageDir env.run
          (computedImportPath modulePath relSegs pkgName)
          (renderPath moduleDir) = .error e1 →
        lookupPackageDir env.run (baseImportPath modulePath relSegs)
          (renderPath moduleDir) = .error e2 →
        inferLocalImportPath env absSourceDir =
          .ok ⟨computedImportPath modulePath relSegs pkgName,
            renderPath absSourceDir⟩)) := by
  have hsuf : moduleDir <:+ absSourceDir := by
    rw [findModulePath] at hm
    exact findModulePathAux_suffix env.fs absSourceDir absSourceDir moduleDir
      modulePath hm
  have hrel := relFromAncestor_of_suffix absSourceDir moduleDir hsuf
  refine ⟨_, hrel, ?_, ?_, ?_⟩
  · intro d b hl1
    simp only [inferLocalImportPath, hm, hp, hrel, hl1]
  · intro e d b hl1 hl2
    simp only [inferLocalImportPath, hm, hp, hrel, hl1, hl2]
  · intro e1 e2 hl1 hl2
    simp only [inferLocalImportPath, hm, hp, hrel, hl1, hl2]
    rw [if_neg (renderPath_ne_empty absSourceDir)]

/-- An environment whose module is declared at the root and whose `go list`
always fails. -/
def envBothFail : Env where
  fs := fsRootMod
  detectPackageName := fun _ => .ok "foo"
  run := fun _ _ => .error "exit 1"

/-- Witness for C1: with both external resolutions failing, inference still
succeeds, using the computed import path and the literal source
directory. -/
theorem inferLocalImportPath_fallback_chain_witness :
    findModulePath envBothFail.fs ["foo"] = .ok ([], "example.com/m") ∧
    envBothFail.detectPackageName ["foo"] = .ok "foo" ∧
    inferLocalImportPath envBothFail ["foo"] =
      .ok ⟨"example.com/m/foo", "/foo"⟩ := by
  have hm : findModulePath envBothFail.fs ["foo"] =
      .ok ([], "example.com/m") := by decide
  obtain ⟨r, hr, -, -, h3⟩ := inferLocalImportPath_fallback_chain envBothFail
    ["foo"] [] "example.com/m" "foo" hm rfl
  have hr0 : relFromAncestor ["foo"] [] = some ["foo"] := by decide
  rw [hr0] at hr
  cases hr
  have happ := h3 _ _
    (lookupPackageDir_run_error envBothFail.run
      (computedImportPath "example.com/m" ["foo"] "foo")
      (renderPath ([] : List String)) "exit 1" rfl)
    (lookupPackageDir_run_error envBothFail.run
      (baseImportPath "example.com/m" ["foo"])
      (renderPath ([] : List String)) "exit 1" rfl)
  refine ⟨hm, rfl, ?_⟩
  rw [happ]
  decide

/-- C4: the detected package name is appended to the module-relative path
only when it differs from the final path segment, and never for `main`: for
a `main` package (and likewise when the name already matches the final
segment) the computed import path is exactly the base path — the module
path joined with the relative directory — and the inference returns that
base path; when the name differs it is appended. -/
theorem inferLocalImportPath_pkgName_suffix (env : Env)
    (absSourceDir moduleDir : List String) (modulePath pkgName : String)
    (hm : findModulePath env.fs absSourceDir = .ok (moduleDir, modulePath))
    (hp : env.detectPackageName absSourceDir = .ok pkgName) :
    ∃ relSegs, relFromAncestor absSourceDir moduleDir = some relSegs ∧
      ((pkgName = "main" →
        computedImportPath modulePath relSegs pkgName =
          baseImportPath modulePath relSegs ∧
        ∃ dir, inferLocalImportPath env absSourceDir =
          .ok ⟨baseImportPath modulePath relSegs, dir⟩) ∧
      (pathBase (baseImportPath modulePath relSegs) = pkgName →
        computedImportPath modulePath relSegs pkgName =
          baseImportPath modulePath relSegs ∧
        ∃ dir, inferLocalImportPath env absSourceDir =
          .ok ⟨baseImportPath modulePath relSegs, dir⟩) ∧
      (pkgName ≠ "" → pkgName ≠ "main" →
        pathBase (baseImportPath modulePath relSegs) ≠ pkgName →
        computedImportPath modulePath relSegs pkgName =
          pathJoin (baseImportPath modulePath relSegs) pkgName)) := by
  have hsuf : moduleDir <:+ absSourceDir := by
    rw [findModulePath] at hm
    exact findModulePathAux_suffix env.fs absSourceDir absSourceDir moduleDir
      modulePath hm
  have hrel := relFromAncestor_of_suffix absSourceDir moduleDir hsuf
  have hbase : ∀ hc : computedImportPath modulePath
      ((absSourceDir.take (absSourceDir.length - moduleDir.length)).reverse)
      pkgName = baseImportPath modulePath
      ((absSourceDir.take (absSourceDir.length - moduleDir.length)).reverse),
      ∃ dir, inferLocalImportPath env absSourceDir =
        .ok ⟨baseImportPath modulePath
          ((absSourceDir.take (absSourceDir.length - moduleDir.length)).reverse),
          dir⟩ := by
    intro hc
    cases hl1 : lookupPackageDir env.run (computedImportPath modulePath
        ((absSourceDir.take (absSourceDir.length - moduleDir.length)).reverse)
        pkgName) (renderPath moduleDir) with
    | ok r =>
      obtain ⟨d, b⟩ := r
      refine ⟨if d = "" then renderPath absSourceDir else d, ?_⟩
      simp only [inferLocalImportPath, hm, hp, hrel, hl1]
      rw [hc]
    | error e =>
      cases hl2 : lookupPackageDir env.run (baseImportPath modulePath
          ((absSourceDir.take (absSourceDir.length - moduleDir.length)).reverse))
          (renderPath moduleDir) with
      | ok r =>
        obtain ⟨d, b⟩ := r
        refine ⟨if d = "" then renderPath absSourceDir else d, ?_⟩
        simp only [inferLocalImportPath, hm, hp, hrel, hl1, hl2]
      | error e2 =>
        refine ⟨renderPath absSourceDir, ?_⟩
        simp only [inferLocalImportPath, hm, hp, hrel, hl1, hl2]
        rw [if_neg (renderPath_ne_empty absSourceDir), hc]
  refine ⟨_, hrel, ?_, ?_, ?_⟩
  · intro hmain
    have hc : computedImportPath modulePath
        ((absSourceDir.take (absSourceDir.length - moduleDir.length)).reverse)
        pkgName = baseImportPath modulePath
        ((absSourceDir.take (absSourceDir.length - moduleDir.length)).reverse) := by
      unfold computedImportPath appendPkgName
      rw [if_neg (by simp [hmain])]
    exact ⟨hc, hbase hc⟩
  · intro hb
    have hc : computedImportPath modulePath
        ((absSourceDir.take (absSourceDir.length - moduleDir.length)).reverse)
        pkgName = baseImportPath modulePath
        ((absSourceDir.take (absSourceDir.length - moduleDir.length)).reverse) := by
      unfold computedImportPath appendPkgName
      by_cases h1 : pkgName ≠ "" ∧ pkgName ≠ "main"
      · rw [if_pos h1, if_neg (fun hcon => hcon hb)]
      · rw [if_neg h1]
    exact ⟨hc, hbase hc⟩
  · intro h1 h2 h3
    unfold computedImportPath appendPkgName
    rw [if_pos ⟨h1, h2⟩, if_pos h3]

/-- An environment for a `package main` directory two levels below the
module root. -/
def envMain : Env where
  fs := fsRootMod
  detectPackageName := fun _ => .ok "main"
  run := fun _ _ => .error "exit 1"

/-- Witness for C4: for `/cmd/tool` holding `package main` under the root
module `example.com/m`, the inferred import path is exactly the module path
joined with the relative directory, with no package-name suffix. -/
theorem inferLocalImportPath_pkgName_suffix_witness :
    computedImportPath "example.com/m" ["cmd", "tool"] "main" =
      baseImportPath "example.com/m" ["cmd", "tool"] ∧
    baseImportPath "example.com/m" ["cmd", "tool"] = "example.com/m/cmd/tool" ∧
    inferLocalImportPath envMain ["tool", "cmd"] =
      .ok ⟨"example.com/m/cmd/tool", "/cmd/tool"⟩ := by
  have hm : findModulePath envMain.fs ["tool", "cmd"] =
      .ok ([], "example.com/m") := by decide
  obtain ⟨r, hr, hmain, -, -⟩ := inferLocalImportPath_pkgName_suffix envMain
    ["tool", "cmd"] [] "example.com/m" "main" hm rfl
  have hr0 : relFromAncestor ["tool", "cmd"] [] = some ["cmd", "tool"] := by
    decide
  rw [hr0] at hr
  cases hr
  obtain ⟨hc, dir, hdir⟩ := hmain rfl
  have hfull : inferLocalImportPath envMain ["tool", "cmd"] =
      .ok ⟨"example.com/m/cmd/tool", "/cmd/tool"⟩ := by decide
  exact ⟨hc, by decide, hfull⟩

end Schemator
